import Mathlib

/-!
Verification of the timed-resynthesis core of the YouTube dubbing pipeline
(`complete_working_translator.py`).

The Python source is shallowly embedded as follows.

Times: the source manipulates seconds as floating-point numbers coming from
the transcription backend and converts them to whole milliseconds with
Python's `int(x * 1000)`.  Seconds are modelled as exact rationals and
`int()` as truncation toward zero (`pyInt`).

Audio: a pydub `AudioSegment` is modelled as a list of integer samples, one
sample per millisecond, so that `len(audio)` (pydub returns milliseconds)
is the list length.  `AudioSegment.silent(duration=n)` is a list of zeros of
length `max n 0` (pydub allocates an empty buffer for a negative duration).
`overlay` mixes additively into the base buffer and never extends it, which
is pydub's documented behaviour.  `speedup` (an external library call,
out of scope for the source) is idealized as an exact rational resampling
`timeStretch` whose output length is `⌊len / factor⌋` milliseconds;
`fade_in`/`fade_out` are idealized as length-preserving linear ramps.

Strings: Python's `str.strip()` is modelled by `pyStrip` over the character
list of the string.

External fallible backends (yt-dlp invocations, the per-segment translation
call, the per-segment TTS synthesis) are modelled as explicit outcome
parameters, so the control flow of the source functions around them can be
embedded exactly.
-/

/-- Python `int()` applied to an exact rational: truncation toward zero. -/
def pyInt (q : ℚ) : ℤ := if 0 ≤ q then ⌊q⌋ else ⌈q⌉

/-- Python `str.strip()`: drop leading and trailing whitespace. -/
def pyStrip (s : String) : String :=
  ⟨((s.data.dropWhile Char.isWhitespace).reverse.dropWhile Char.isWhitespace).reverse⟩

/-- A pydub `AudioSegment`: one integer sample per millisecond. -/
abbrev Audio := List ℤ

/-- `AudioSegment.silent(duration=n)`: `max n 0` milliseconds of silence
(pydub produces an empty buffer when `n` is negative). -/
def silent (n : ℤ) : Audio := List.replicate n.toNat 0

/-- `base.overlay(clip, position=pos)`: additively mix `clip` into `base`
starting at offset `pos`; samples of `clip` past the end of `base` are
dropped (pydub never lengthens the base segment). -/
def overlay (base clip : Audio) (pos : ℤ) : Audio :=
  base.mapIdx (fun i x =>
    if pos ≤ (i : ℤ) ∧ (i : ℤ) < pos + clip.length then
      x + clip.getD ((i : ℤ) - pos).toNat 0
    else x)

/-- `audio.fade_in(d)`, idealized as a linear gain ramp over the first `d`
milliseconds (length-preserving). -/
def fade_in (d : ℕ) (xs : Audio) : Audio :=
  xs.mapIdx (fun i x => if i < d then x * (i : ℤ) / (d : ℤ) else x)

/-- `audio.fade_out(d)`, idealized as a linear gain ramp over the last `d`
milliseconds (length-preserving). -/
def fade_out (d : ℕ) (xs : Audio) : Audio :=
  xs.mapIdx (fun i x =>
    if xs.length ≤ i + d then x * ((xs.length : ℤ) - (i : ℤ)) / (d : ℤ) else x)

/-- `audio.speedup(playback_speed=factor)`, idealized as exact rational
resampling: the result lasts `⌊len / factor⌋` milliseconds and sample `j`
reads the source at position `⌊j * factor⌋`. -/
def timeStretch (clip : Audio) (factor : ℚ) : Audio :=
  (List.range (⌊(clip.length : ℚ) / factor⌋).toNat).map
    (fun (j : ℕ) => clip.getD (⌊(j : ℚ) * factor⌋).toNat 0)

/-- One transcription segment as consumed by `translate_segments`
(`{text, start, end}` from the speech-to-text backend). -/
structure Seg where
  text : String
  start : ℚ
  stop : ℚ

/-- One translated segment as produced by `translate_segments` and consumed
by `create_translated_audio_fixed`
(`{original, translated, start, end}`). -/
structure TSeg where
  original : String
  translated : String
  start : ℚ
  stop : ℚ

/-- The body of the per-segment loop of `translate_segments`
(lines 215-255): skip segments whose stripped text is empty; otherwise call
the translation backend `tr` on the stripped text; keep the translation only
when it is non-empty and differs from the original, and fall back to the
original text (with unchanged times) when the call raises or returns an
empty/unchanged result. -/
def translateOne (tr : String → Except String String) (seg : Seg) : Option TSeg :=
  let o := pyStrip seg.text
  if o = "" then none
  else some (match tr o with
    | Except.ok t => if t ≠ "" ∧ t ≠ o then ⟨o, t, seg.start, seg.stop⟩
                     else ⟨o, o, seg.start, seg.stop⟩
    | Except.error _ => ⟨o, o, seg.start, seg.stop⟩)

/-- `translate_segments` (lines 208-258): the loop appends one output entry
per segment with non-empty stripped text, in input order. -/
def translate_segments (segs : List Seg) (tr : String → Except String String) :
    List TSeg :=
  segs.filterMap (translateOne tr)

/-- The duration-reconciliation block of `create_translated_audio_fixed`
(lines 326-338): speed up (bounded by factor 3) or cut a too-long clip,
right-pad a too-short clip with silence, otherwise keep the clip. -/
def reconcile (clip : Audio) (slotDur : ℤ) : Audio :=
  if (clip.length : ℤ) > slotDur ∧ slotDur > 0 then
    if ((clip.length : ℚ) / (slotDur : ℚ)) ≤ 3 then
      timeStretch clip ((clip.length : ℚ) / (slotDur : ℚ))
    else clip.take slotDur.toNat
  else if (clip.length : ℤ) < slotDur then
    clip ++ List.replicate (slotDur - (clip.length : ℤ)).toNat 0
  else clip

/-- The fade block of `create_translated_audio_fixed` (lines 341-342):
clips longer than 100 ms get a 50 ms fade-in and fade-out. -/
def applyFade (xs : Audio) : Audio :=
  if xs.length > 100 then fade_out 50 (fade_in 50 xs) else xs

/-- The clip actually overlaid for one utterance: duration reconciliation
followed by the conditional fade. -/
def processedClip (clip : Audio) (slotDur : ℤ) : Audio :=
  applyFade (reconcile clip slotDur)

/-- Python `max(seg['end'] for seg in segs)` over a non-empty list
(the `headD 0` seed is irrelevant for the non-empty lists the source
guards for). -/
def listMax (l : List ℚ) : ℚ := l.foldl max (l.headD 0)

/-- The length in milliseconds of the initially allocated silent track
(line 270-271): `int(max(seg.end) * 1000)`, negative values giving an empty
buffer. -/
def allocatedLen (segs : List TSeg) : ℕ :=
  (pyInt (listMax (segs.map TSeg.stop) * 1000)).toNat

/-- The body of the per-utterance loop of `create_translated_audio_fixed`
(lines 275-353) acting on the accumulator (track, success counter).
`clips i = none` models every local synthesis failure for utterance `i`
(TTS exception, missing or empty output file, load failure), all of which
the source skips with `continue`. -/
def stepSeg (clips : ℕ → Option Audio) (acc : Audio × ℕ) (p : ℕ × TSeg) :
    Audio × ℕ :=
  if pyStrip p.2.translated = "" then acc
  else match clips p.1 with
    | none => acc
    | some clip =>
        let startMs := pyInt (p.2.start * 1000)
        let endMs := pyInt (p.2.stop * 1000)
        (overlay acc.1 (processedClip clip (endMs - startMs)) startMs, acc.2 + 1)

/-- Failure outcomes of `create_translated_audio_fixed`: the source returns
`None` with the log message "No segments to process" (line 265) or
"No speech segments were generated successfully" (line 356). -/
inductive AssembleError
  | noSegments
  | noClipsProduced
deriving DecidableEq

/-- `create_translated_audio_fixed` (lines 260-375): guard against an empty
segment list, allocate a silent track of the total duration, process every
segment in list order, and fail when the success counter is zero. -/
def create_translated_audio_fixed (segs : List TSeg) (clips : ℕ → Option Audio) :
    Except AssembleError Audio :=
  if segs.isEmpty then Except.error AssembleError.noSegments
  else
    let res := segs.enum.foldl (stepSeg clips)
      (silent (pyInt (listMax (segs.map TSeg.stop) * 1000)), 0)
    if res.2 = 0 then Except.error AssembleError.noClipsProduced
    else Except.ok res.1

/-- The overlay actually performed for one enumerated utterance, if any:
the pair (overlay position, processed clip).  Mirrors the guards of
`stepSeg` exactly. -/
def traceOne (clips : ℕ → Option Audio) (p : ℕ × TSeg) : Option (ℤ × Audio) :=
  if pyStrip p.2.translated = "" then none
  else (clips p.1).map (fun clip =>
    (pyInt (p.2.start * 1000),
     processedClip clip (pyInt (p.2.stop * 1000) - pyInt (p.2.start * 1000))))

/-- The sequence of overlays performed by one `create_translated_audio_fixed`
call, in the order the loop performs them. -/
def overlayTrace (segs : List TSeg) (clips : ℕ → Option Audio) :
    List (ℤ × Audio) :=
  segs.enum.filterMap (traceOne clips)

/-- Outcome of one download strategy attempt in `download_video_robust`:
the yt-dlp invocation raises (with a message the source logs as the failure
reason), or produces an artifact that passes or fails the
exists-and-size-over-1000 validation. -/
inductive Attempt
  | raises (msg : String)
  | produces (valid : Bool)
deriving DecidableEq

/-- The failure reason recorded (logged) for one attempt: the source logs a
warning only in the `except` branch (line 106); a validation failure
(line 99-103) records nothing. -/
def raisedMsg : Attempt → Option String
  | Attempt.raises m => some m
  | Attempt.produces _ => none

/-- The strategy loop of `download_video_robust` (lines 88-113), carrying the
current strategy index and the reasons logged so far: stop at the first
validated artifact, otherwise try the next strategy. -/
def dlGo (i : ℕ) (reasons : List String) : List Attempt → Option ℕ × List String
  | [] => (none, reasons)
  | Attempt.raises m :: rest => dlGo (i + 1) (reasons ++ [m]) rest
  | Attempt.produces true :: _ => (some i, reasons)
  | Attempt.produces false :: rest => dlGo (i + 1) reasons rest

/-- `download_video_robust` restricted to its strategy loop: given the
outcome of each strategy in order, return the index of the winning strategy
(`none` when all are exhausted, modelling the `return None, None` at
line 113) together with the list of logged failure reasons. -/
def download_video_robust (atts : List Attempt) : Option ℕ × List String :=
  dlGo 0 [] atts

/-- Outcome of one pipeline stage inside `translate_video`: the stage
succeeds, returns a falsy failure value (`None`, an empty list, `False`),
or raises an exception / is interrupted. -/
inductive StageOutcome
  | ok
  | failsResult
  | raisesExc
deriving DecidableEq

/-- `translate_video` (lines 432-493) as a function of the outcomes of its
five stages (download+extract, transcribe, translate, resynthesize, mux),
returning (run succeeded, number of `_clean_temp_files` calls made by
`translate_video` itself: line 474 on success, lines 488 and 492 in the
exception handlers).  A falsy stage result triggers `return None` inside the
`try` block without any cleanup call; a raised exception is caught and
cleaned up once. -/
def translate_video : List StageOutcome → Bool × ℕ
  | [] => (true, 1)
  | StageOutcome.ok :: rest => translate_video rest
  | StageOutcome.failsResult :: _ => (false, 0)
  | StageOutcome.raisesExc :: _ => (false, 1)

-- Sanity examples (concrete evaluations of the embedding).
example : pyInt (17 / 10) = 1 := by norm_num [pyInt]
example : pyStrip " hi " = "hi" := by decide
example : overlay [0, 0, 0] [7, 7] 1 = [0, 7, 7] := by decide
example : silent (-3) = [] := rfl
example : translate_video [StageOutcome.failsResult] = (false, 0) := rfl
example : download_video_robust [Attempt.raises "x", Attempt.produces true] =
    (some 1, ["x"]) := rfl

-- Helper lemmas shared by the claim theorems below.

theorem pyInt_natCast (n : ℕ) : pyInt (n : ℚ) = n := by
  simp [pyInt, Int.floor_natCast]

theorem pyInt_mono {a b : ℚ} (h : a ≤ b) : pyInt a ≤ pyInt b := by
  unfold pyInt
  split_ifs with ha hb hb
  · exact Int.floor_le_floor h
  · exact absurd (le_trans ha h) hb
  · have h1 : ⌈a⌉ ≤ 0 := Int.ceil_le.mpr (by exact_mod_cast le_of_lt (not_le.mp ha))
    have h2 : (0 : ℤ) ≤ ⌊b⌋ := Int.floor_nonneg.mpr hb
    omega
  · exact Int.ceil_le_ceil h

theorem overlay_length (base clip : Audio) (pos : ℤ) :
    (overlay base clip pos).length = base.length := by
  simp [overlay]

theorem foldl_overlay_length (pcs : List (ℤ × Audio)) :
    ∀ tr : Audio, (pcs.foldl (fun t pc => overlay t pc.2 pc.1) tr).length = tr.length := by
  induction pcs with
  | nil => intro tr; rfl
  | cons p rest ih => intro tr; rw [List.foldl_cons, ih, overlay_length]

theorem stepSeg_eq_traceOne (clips : ℕ → Option Audio) (acc : Audio × ℕ) (p : ℕ × TSeg) :
    stepSeg clips acc p =
      match traceOne clips p with
      | none => acc
      | some pc => (overlay acc.1 pc.2 pc.1, acc.2 + 1) := by
  unfold stepSeg traceOne
  by_cases h : pyStrip p.2.translated = ""
  · simp [h]
  · simp only [h, if_false]
    cases clips p.1 <;> simp

theorem foldl_stepSeg (clips : ℕ → Option Audio) (l : List (ℕ × TSeg)) :
    ∀ (tr : Audio) (s : ℕ),
      l.foldl (stepSeg clips) (tr, s) =
        ((l.filterMap (traceOne clips)).foldl (fun t pc => overlay t pc.2 pc.1) tr,
         s + (l.filterMap (traceOne clips)).length) := by
  induction l with
  | nil => intro tr s; simp
  | cons p rest ih =>
    intro tr s
    rw [List.foldl_cons, stepSeg_eq_traceOne]
    cases h : traceOne clips p with
    | none => simp only [List.filterMap_cons, h]; exact ih tr s
    | some pc =>
      simp only [List.filterMap_cons, h, List.foldl_cons]
      rw [ih]
      rw [Prod.mk.injEq]
      refine ⟨rfl, ?_⟩
      simp only [List.length_cons]
      omega

theorem assemble_eq (segs : List TSeg) (clips : ℕ → Option Audio) :
    create_translated_audio_fixed segs clips =
      if segs.isEmpty then Except.error AssembleError.noSegments
      else if (overlayTrace segs clips).length = 0 then
        Except.error AssembleError.noClipsProduced
      else Except.ok ((overlayTrace segs clips).foldl
        (fun tr pc => overlay tr pc.2 pc.1)
        (silent (pyInt (listMax (segs.map TSeg.stop) * 1000)))) := by
  unfold create_translated_audio_fixed overlayTrace
  rw [foldl_stepSeg]
  simp only [Nat.zero_add]

theorem pairwise_enum {α : Type _} {R : α → α → Prop} {l : List α}
    (h : List.Pairwise R l) :
    List.Pairwise (fun p q : ℕ × α => R p.2 q.2) l.enum := by
  rw [List.pairwise_iff_getElem] at h ⊢
  intro i j hi hj hij
  rw [List.enum_length] at hi hj
  simp only [List.getElem_enum]
  exact h i j hi hj hij

theorem traceOne_fst {clips : ℕ → Option Audio} {p : ℕ × TSeg} {x : ℤ × Audio}
    (h : traceOne clips p = some x) : x.1 = pyInt (p.2.start * 1000) := by
  unfold traceOne at h
  split at h
  · exact absurd h (by simp)
  · rw [Option.map_eq_some'] at h
    obtain ⟨c, _, hx⟩ := h
    rw [← hx]

theorem dlGo_all_fail (atts : List Attempt) :
    ∀ (i : ℕ) (rs : List String), (∀ a ∈ atts, a ≠ Attempt.produces true) →
      dlGo i rs atts = (none, rs ++ atts.filterMap raisedMsg) := by
  induction atts with
  | nil => intro i rs _; simp [dlGo]
  | cons a rest ih =>
    intro i rs h
    match a with
    | Attempt.raises m =>
        have e : dlGo i rs (Attempt.raises m :: rest) =
            dlGo (i + 1) (rs ++ [m]) rest := rfl
        rw [e, ih _ _ (fun x hx => h x (List.mem_cons_of_mem _ hx))]
        simp [raisedMsg]
    | Attempt.produces true => exact absurd rfl (h _ (List.mem_cons_self _ _))
    | Attempt.produces false =>
        have e : dlGo i rs (Attempt.produces false :: rest) =
            dlGo (i + 1) rs rest := rfl
        rw [e, ih _ _ (fun x hx => h x (List.mem_cons_of_mem _ hx))]
        simp [raisedMsg]

theorem dlGo_first_valid (pre : List Attempt) :
    ∀ (i : ℕ) (rs : List String) (rest : List Attempt),
      (∀ a ∈ pre, a ≠ Attempt.produces true) →
      dlGo i rs (pre ++ Attempt.produces true :: rest) =
        (some (i + pre.length), rs ++ pre.filterMap raisedMsg) := by
  induction pre with
  | nil => intro i rs rest _; simp [dlGo]
  | cons a pre' ih =>
    intro i rs rest h
    match a with
    | Attempt.raises m =>
        have e : dlGo i rs ((Attempt.raises m :: pre') ++ Attempt.produces true :: rest) =
            dlGo (i + 1) (rs ++ [m]) (pre' ++ Attempt.produces true :: rest) := rfl
        rw [e, ih _ _ _ (fun x hx => h x (List.mem_cons_of_mem _ hx))]
        rw [Prod.mk.injEq]
        refine ⟨?_, ?_⟩
        · simp only [List.length_cons, Option.some.injEq]; omega
        · simp [raisedMsg]
    | Attempt.produces true => exact absurd rfl (h _ (List.mem_cons_self _ _))
    | Attempt.produces false =>
        have e : dlGo i rs ((Attempt.produces false :: pre') ++ Attempt.produces true :: rest) =
            dlGo (i + 1) rs (pre' ++ Attempt.produces true :: rest) := rfl
        rw [e, ih _ _ _ (fun x hx => h x (List.mem_cons_of_mem _ hx))]
        rw [Prod.mk.injEq]
        refine ⟨?_, ?_⟩
        · simp only [List.length_cons, Option.some.injEq]; omega
        · simp [raisedMsg]

/-- Claim C4 counterexample: three strategies whose downloads all produce an
artifact that fails the size validation are exhausted, yet the failure
return carries zero recorded reasons, not one per strategy (the source logs
a reason only when the invocation raises, and the validation-failure branch
at lines 102-103 records nothing). -/
theorem download_reasons_counterexample :
    download_video_robust [Attempt.produces false, Attempt.produces false,
      Attempt.produces false] = (none, []) := rfl

/-- Claim C4 (amended): when every strategy is exhausted without a validated
artifact, `download_video_robust` returns a failure (no winning strategy)
whose logged reasons are exactly one per strategy whose invocation raised,
in strategy order; strategies whose artifact merely failed validation record
no reason.  Conversely the first strategy whose artifact passes validation
returns immediately: the result does not depend on any later strategy. -/
theorem download_exhaustion_and_first_success :
    (∀ atts : List Attempt, (∀ a ∈ atts, a ≠ Attempt.produces true) →
      download_video_robust atts = (none, atts.filterMap raisedMsg)) ∧
    (∀ pre rest : List Attempt, (∀ a ∈ pre, a ≠ Attempt.produces true) →
      download_video_robust (pre ++ Attempt.produces true :: rest) =
        (some pre.length, pre.filterMap raisedMsg)) := by
  constructor
  · intro atts h
    unfold download_video_robust
    rw [dlGo_all_fail atts 0 [] h]
    simp
  · intro pre rest h
    unfold download_video_robust
    rw [dlGo_first_valid pre 0 [] rest h]
    simp

theorem download_exhaustion_and_first_success_witness :
    download_video_robust [Attempt.raises "x", Attempt.produces false] = (none, ["x"]) ∧
    download_video_robust [Attempt.raises "x", Attempt.produces true,
      Attempt.raises "y"] = (some 1, ["x"]) := by
  constructor
  · have h := download_exhaustion_and_first_success.1
      [Attempt.raises "x", Attempt.produces false] (by decide)
    simpa [raisedMsg] using h
  · have h := download_exhaustion_and_first_success.2
      [Attempt.raises "x"] [Attempt.raises "y"] (by decide)
    simpa [raisedMsg] using h

/-- Claim C5: if the segment list is non-empty but every utterance is
skipped (empty stripped text, or every local synthesis step failed), the
success counter stays zero and `create_translated_audio_fixed` returns the
`NoClipsProduced` failure with no track. -/
theorem zero_success_noClipsProduced (segs : List TSeg) (clips : ℕ → Option Audio)
    (hne : segs ≠ [])
    (hall : ∀ p ∈ segs.enum, pyStrip p.2.translated = "" ∨ clips p.1 = none) :
    create_translated_audio_fixed segs clips =
      Except.error AssembleError.noClipsProduced := by
  have htr : overlayTrace segs clips = [] := by
    unfold overlayTrace
    rw [List.filterMap_eq_nil_iff]
    intro p hp
    rcases hall p hp with h | h
    · simp [traceOne, h]
    · simp [traceOne, h]
  cases segs with
  | nil => exact absurd rfl hne
  | cons a l =>
    rw [assemble_eq, htr]
    simp

theorem zero_success_noClipsProduced_witness :
    create_translated_audio_fixed [⟨"a", "x", 0, 1⟩] (fun _ => none) =
      Except.error AssembleError.noClipsProduced :=
  zero_success_noClipsProduced _ _ (by simp) (fun p _ => Or.inr rfl)

/-- Claim C6: an empty utterance list makes `create_translated_audio_fixed`
return the `NoSegments` failure immediately, before any track is allocated
or exported. -/
theorem empty_segments_noSegments (clips : ℕ → Option Audio) :
    create_translated_audio_fixed [] clips =
      Except.error AssembleError.noSegments := rfl

/-- Claim C7 counterexample: a run whose first stage returns a failure value
(e.g. the download returns `None, None`) hits the early `return None` inside
the `try` block of `translate_video` and performs zero cleanup calls, not
exactly one. -/
theorem cleanup_skipped_counterexample :
    translate_video [StageOutcome.failsResult, StageOutcome.ok, StageOutcome.ok,
      StageOutcome.ok, StageOutcome.ok] = (false, 0) := rfl

/-- Claim C7 (amended): `translate_video` runs `_clean_temp_files` exactly
once when every stage succeeds and exactly once when a stage raises (or the
run is interrupted), but zero times when a stage returns a failure value:
those paths return early without cleanup, and the leftover files are only
removed by the pre-clean of a later run's download stage. -/
theorem cleanup_call_policy (pre post : List StageOutcome)
    (h : ∀ s ∈ pre, s = StageOutcome.ok) :
    translate_video pre = (true, 1) ∧
    translate_video (pre ++ StageOutcome.raisesExc :: post) = (false, 1) ∧
    translate_video (pre ++ StageOutcome.failsResult :: post) = (false, 0) := by
  induction pre with
  | nil => exact ⟨rfl, rfl, rfl⟩
  | cons a rest ih =>
    have ha : a = StageOutcome.ok := h a (List.mem_cons_self _ _)
    subst ha
    have h' : ∀ s ∈ rest, s = StageOutcome.ok :=
      fun s hs => h s (List.mem_cons_of_mem _ hs)
    exact ⟨(ih h').1, (ih h').2.1, (ih h').2.2⟩

theorem cleanup_call_policy_witness :
    translate_video [StageOutcome.ok] = (true, 1) ∧
    translate_video ([StageOutcome.ok] ++ StageOutcome.raisesExc :: []) = (false, 1) ∧
    translate_video ([StageOutcome.ok] ++ StageOutcome.failsResult :: []) = (false, 0) :=
  cleanup_call_policy [StageOutcome.ok] [] (by decide)

/-- The stretch target of claim C1, transcribed from the claim's words:
resample the clip "to exactly" the target length `n`. -/
def stretchToLength (clip : Audio) (n : ℕ) : Audio :=
  (List.range n).map
    (fun (j : ℕ) => clip.getD (⌊(j : ℚ) * ((clip.length : ℚ) / (n : ℚ))⌋).toNat 0)

/-- The three-branch priority rule of claim C1, transcribed from the claim's
words for comparison with the source-derived `reconcile`. -/
def reconcileSpec (clip : Audio) (slotDur : ℤ) : Audio :=
  if (clip.length : ℤ) > slotDur ∧ slotDur > 0 then
    if ((clip.length : ℚ) / (slotDur : ℚ)) ≤ 3 then stretchToLength clip slotDur.toNat
    else clip.take slotDur.toNat
  else if (clip.length : ℤ) < slotDur then
    clip ++ List.replicate (slotDur - (clip.length : ℤ)).toNat 0
  else clip

theorem timeStretch_eq_stretchToLength (clip : Audio) (slotDur : ℤ)
    (h1 : slotDur < (clip.length : ℤ)) (h2 : 0 < slotDur) :
    timeStretch clip ((clip.length : ℚ) / (slotDur : ℚ)) =
      stretchToLength clip slotDur.toNat := by
  have hlen0 : (0 : ℚ) < (clip.length : ℚ) := by
    have h : (0 : ℤ) < (clip.length : ℤ) := lt_trans h2 h1
    exact_mod_cast h
  have hcast : ((slotDur.toNat : ℕ) : ℚ) = ((slotDur : ℤ) : ℚ) := by
    exact_mod_cast Int.toNat_of_nonneg (le_of_lt h2)
  have hdiv : (clip.length : ℚ) / ((clip.length : ℚ) / (slotDur : ℚ)) =
      ((slotDur : ℤ) : ℚ) := by
    rw [div_div_eq_mul_div]
    exact mul_div_cancel_left₀ _ (ne_of_gt hlen0)
  unfold timeStretch stretchToLength
  rw [hdiv, Int.floor_intCast, hcast]

/-- Claim C1: for every synthesized clip, the duration reconciliation of
`create_translated_audio_fixed` follows the three-branch priority rule: when
the clip is longer than a positive slot it is time-stretched to exactly the
slot duration if the speed factor is at most 3 and hard-truncated to the
first slot-duration milliseconds otherwise; a shorter clip is right-padded
with silence to the slot duration; otherwise the clip is used unmodified.
In particular, for every positive slot duration the reconciled clip lasts
exactly the slot duration. -/
theorem reconcile_three_branch_rule (clip : Audio) (slotDur : ℤ) :
    reconcile clip slotDur = reconcileSpec clip slotDur ∧
    (0 < slotDur → (reconcile clip slotDur).length = slotDur.toNat) := by
  have hmain : reconcile clip slotDur = reconcileSpec clip slotDur := by
    unfold reconcile reconcileSpec
    by_cases hg : (clip.length : ℤ) > slotDur ∧ slotDur > 0
    · rw [if_pos hg, if_pos hg]
      by_cases hf : ((clip.length : ℚ) / (slotDur : ℚ)) ≤ 3
      · rw [if_pos hf, if_pos hf]
        exact timeStretch_eq_stretchToLength clip slotDur hg.1 hg.2
      · rw [if_neg hf, if_neg hf]
    · rw [if_neg hg, if_neg hg]
  refine ⟨hmain, fun hpos => ?_⟩
  rw [hmain]
  unfold reconcileSpec
  by_cases hg : (clip.length : ℤ) > slotDur ∧ slotDur > 0
  · rw [if_pos hg]
    by_cases hf : ((clip.length : ℚ) / (slotDur : ℚ)) ≤ 3
    · rw [if_pos hf]
      simp [stretchToLength]
    · rw [if_neg hf, List.length_take]
      have hle : slotDur.toNat ≤ clip.length := by omega
      exact min_eq_left hle
  · rw [if_neg hg]
    by_cases hlt : (clip.length : ℤ) < slotDur
    · rw [if_pos hlt, List.length_append, List.length_replicate]
      omega
    · rw [if_neg hlt]
      push_neg at hg
      omega

theorem reconcile_three_branch_rule_witness :
    reconcile [4, 4, 4, 4] 2 = reconcileSpec [4, 4, 4, 4] 2 ∧
    (reconcile [4, 4, 4, 4] 2).length = (2 : ℤ).toNat :=
  ⟨(reconcile_three_branch_rule [4, 4, 4, 4] 2).1,
   (reconcile_three_branch_rule [4, 4, 4, 4] 2).2 (by decide)⟩

/-- Claim C8: a segment whose translation call raises or returns an empty
result is kept in the output of `translate_segments` with its original
(stripped) text used verbatim as the translated text and its start/end times
unchanged; the surrounding segments are translated exactly as they would be
without it. -/
theorem failed_translation_keeps_original (pre post : List Seg) (s : Seg)
    (tr : String → Except String String)
    (h1 : pyStrip s.text ≠ "")
    (h2 : tr (pyStrip s.text) = Except.ok "" ∨
          ∃ e, tr (pyStrip s.text) = Except.error e) :
    translate_segments (pre ++ s :: post) tr =
      translate_segments pre tr ++
        ⟨pyStrip s.text, pyStrip s.text, s.start, s.stop⟩ ::
          translate_segments post tr := by
  have hone : translateOne tr s =
      some ⟨pyStrip s.text, pyStrip s.text, s.start, s.stop⟩ := by
    unfold translateOne
    simp only []
    rw [if_neg h1]
    rcases h2 with h | ⟨e, h⟩
    · rw [h]
      simp
    · rw [h]
  unfold translate_segments
  rw [List.filterMap_append]
  congr 1
  simp only [List.filterMap_cons, hone]

theorem failed_translation_keeps_original_witness :
    translate_segments [⟨" hi ", 0, 1⟩] (fun _ => Except.error "boom") =
      [⟨"hi", "hi", 0, 1⟩] := by
  have h := failed_translation_keeps_original [] [] ⟨" hi ", 0, 1⟩
    (fun _ => Except.error "boom") (by decide) (Or.inr ⟨"boom", rfl⟩)
  have e : pyStrip " hi " = "hi" := by decide
  rw [e] at h
  exact h

/-- Claim C9 (amended): a slot whose rounded duration is zero (or negative)
skips duration reconciliation entirely — in particular the speed-factor
division is never evaluated, since it sits under the `slotDurationMs > 0`
conjunct of the first branch — and the clip reaches the overlay at the slot
start modified only by the standard over-100ms fade, not by any duration
change. -/
theorem zero_slot_skips_reconciliation (clip : Audio) (d : ℤ) (h : d ≤ 0) :
    reconcile clip d = clip ∧ processedClip clip d = applyFade clip := by
  have h1 : ¬ ((clip.length : ℤ) > d ∧ d > 0) := fun hc => absurd hc.2 (by omega)
  have h2 : ¬ ((clip.length : ℤ) < d) := by
    have hn : (0 : ℤ) ≤ (clip.length : ℤ) := Int.natCast_nonneg _
    omega
  have hrec : reconcile clip d = clip := by
    unfold reconcile
    rw [if_neg h1, if_neg h2]
  exact ⟨hrec, by unfold processedClip; rw [hrec]⟩

theorem zero_slot_skips_reconciliation_witness :
    reconcile [1, 2] 0 = [1, 2] ∧ processedClip [1, 2] 0 = applyFade [1, 2] :=
  zero_slot_skips_reconciliation [1, 2] 0 (by decide)

/-- Claim C9 counterexample: for a zero-duration slot the clip is not
overlaid unmodified — the 50 ms fades still apply to clips longer than
100 ms, so the pair actually overlaid differs from (slot start, original
clip): its first sample has been zeroed by the fade-in. -/
theorem zero_slot_fade_counterexample :
    overlayTrace [⟨"a", "x", 0, 0⟩] (fun _ => some (List.replicate 101 1000)) ≠
      [((0 : ℤ), List.replicate 101 (1000 : ℤ))] := by
  have h0 : pyInt ((0 : ℚ) * 1000) = 0 := by norm_num [pyInt]
  have hone : traceOne (fun _ => some (List.replicate 101 1000))
      ((0 : ℕ), (⟨"a", "x", 0, 0⟩ : TSeg)) =
      some ((0 : ℤ), processedClip (List.replicate 101 1000) 0) := by
    unfold traceOne
    rw [if_neg (by decide : ¬ (pyStrip "x" = ""))]
    show some (pyInt ((0 : ℚ) * 1000),
        processedClip (List.replicate 101 1000)
          (pyInt ((0 : ℚ) * 1000) - pyInt ((0 : ℚ) * 1000))) = _
    rw [h0]
    norm_num
  have htr : overlayTrace [⟨"a", "x", 0, 0⟩]
      (fun _ => some (List.replicate 101 1000)) =
      [((0 : ℤ), processedClip (List.replicate 101 1000) 0)] := by
    unfold overlayTrace
    show List.filterMap _ [((0 : ℕ), (⟨"a", "x", 0, 0⟩ : TSeg))] = _
    simp only [List.filterMap_cons, hone, List.filterMap_nil]
  rw [htr]
  have hpc : processedClip (List.replicate 101 1000) 0 ≠
      List.replicate 101 (1000 : ℤ) := by decide
  intro hc
  exact hpc (congrArg Prod.snd (List.cons_eq_cons.mp hc).1)

theorem listMax_example :
    listMax ([⟨"a", "x", 0, 3 / 1000⟩].map TSeg.stop) * 1000 = ((3 : ℕ) : ℚ) := by
  norm_num [listMax]

theorem assemble_example_eval :
    create_translated_audio_fixed [⟨"a", "x", 0, 3 / 1000⟩] (fun _ => some [7]) =
      Except.ok [7, 0, 0] := by
  have h0 : pyInt ((0 : ℚ) * 1000) = 0 := by norm_num [pyInt]
  have h3 : pyInt ((3 / 1000 : ℚ) * 1000) = 3 := by norm_num [pyInt]
  have hone : traceOne (fun _ => some [7]) ((0 : ℕ), (⟨"a", "x", 0, 3 / 1000⟩ : TSeg)) =
      some ((0 : ℤ), [7, 0, 0]) := by
    unfold traceOne
    rw [if_neg (by decide : ¬ (pyStrip "x" = ""))]
    show some (pyInt ((0 : ℚ) * 1000),
        processedClip [7] (pyInt ((3 / 1000 : ℚ) * 1000) - pyInt ((0 : ℚ) * 1000))) = _
    rw [h0, h3]
    norm_num
    decide
  have htr : overlayTrace [⟨"a", "x", 0, 3 / 1000⟩] (fun _ => some [7]) =
      [((0 : ℤ), [7, 0, 0])] := by
    unfold overlayTrace
    show List.filterMap _ [((0 : ℕ), (⟨"a", "x", 0, 3 / 1000⟩ : TSeg))] = _
    simp only [List.filterMap_cons, hone, List.filterMap_nil]
  have hs : silent (pyInt (listMax ([⟨"a", "x", 0, 3 / 1000⟩].map TSeg.stop) * 1000)) =
      [0, 0, 0] := by
    rw [listMax_example, pyInt_natCast]
    rfl
  rw [assemble_eq, htr, hs]
  simp only [List.isEmpty_cons, Bool.false_eq_true, if_false, List.length_cons,
    List.length_nil, List.foldl_cons, List.foldl_nil]
  norm_num
  decide

/-- Claim C2 counterexample: with a single utterance ending at 0.0017 s the
maximal slot end times 1000 is 1.7 ms; the source's `int()` truncates this
to 1 ms (the exported track has length 1), while rounding to the nearest
millisecond as claimed would give 2 ms. -/
theorem total_duration_truncation_counterexample :
    create_translated_audio_fixed [⟨"hi", "hola", 0, 17 / 10000⟩]
      (fun _ => some [5]) = Except.ok [5] ∧
    round ((17 / 10000 : ℚ) * 1000) = 2 := by
  constructor
  · have h0 : pyInt ((0 : ℚ) * 1000) = 0 := by norm_num [pyInt]
    have h17 : pyInt ((17 / 10000 : ℚ) * 1000) = 1 := by norm_num [pyInt]
    have hone : traceOne (fun _ => some [5])
        ((0 : ℕ), (⟨"hi", "hola", 0, 17 / 10000⟩ : TSeg)) =
        some ((0 : ℤ), [5]) := by
      unfold traceOne
      rw [if_neg (by decide : ¬ (pyStrip "hola" = ""))]
      show some (pyInt ((0 : ℚ) * 1000),
          processedClip [5] (pyInt ((17 / 10000 : ℚ) * 1000) - pyInt ((0 : ℚ) * 1000))) = _
      rw [h0, h17]
      norm_num
      decide
    have htr : overlayTrace [⟨"hi", "hola", 0, 17 / 10000⟩] (fun _ => some [5]) =
        [((0 : ℤ), [5])] := by
      unfold overlayTrace
      show List.filterMap _ [((0 : ℕ), (⟨"hi", "hola", 0, 17 / 10000⟩ : TSeg))] = _
      simp only [List.filterMap_cons, hone, List.filterMap_nil]
    have hs : silent (pyInt (listMax ([⟨"hi", "hola", 0, 17 / 10000⟩].map TSeg.stop)
        * 1000)) = [0] := by
      have hm : listMax ([⟨"hi", "hola", 0, 17 / 10000⟩].map TSeg.stop) * 1000 =
          ((17 / 10 : ℚ)) := by norm_num [listMax]
      rw [hm]
      have : pyInt (17 / 10) = 1 := by norm_num [pyInt]
      rw [this]
      rfl
    rw [assemble_eq, htr, hs]
    simp only [List.isEmpty_cons, Bool.false_eq_true, if_false, List.length_cons,
      List.length_nil, List.foldl_cons, List.foldl_nil]
    norm_num
    decide
  · rw [round_eq]
    norm_num

/-- Claim C2 (amended): the track is allocated at `int(max(slot.end)*1000)`
milliseconds — truncation toward zero (with a negative value yielding an
empty buffer), not rounding to nearest — and this length is preserved by
every overlay, so whenever `max(slot.end)*1000` is a non-negative integer
`n` (in particular for non-overlapping integral-millisecond slots with clip
durations at most the slot duration) the exported track has length exactly
`n`. -/
theorem track_length_exact_when_integral (segs : List TSeg)
    (clips : ℕ → Option Audio) (t : Audio) (n : ℕ)
    (h1 : create_translated_audio_fixed segs clips = Except.ok t)
    (h2 : listMax (segs.map TSeg.stop) * 1000 = (n : ℚ)) :
    t.length = n := by
  rw [assemble_eq] at h1
  by_cases he : segs.isEmpty = true
  · rw [if_pos he] at h1; simp at h1
  · rw [if_neg he] at h1
    by_cases hz : (overlayTrace segs clips).length = 0
    · rw [if_pos hz] at h1; simp at h1
    · rw [if_neg hz] at h1
      simp only [Except.ok.injEq] at h1
      rw [← h1, foldl_overlay_length]
      unfold silent
      rw [List.length_replicate, h2, pyInt_natCast]
      exact Int.toNat_natCast n

theorem track_length_exact_when_integral_witness :
    ([7, 0, 0] : Audio).length = 3 :=
  track_length_exact_when_integral [⟨"a", "x", 0, 3 / 1000⟩] (fun _ => some [7])
    [7, 0, 0] 3 assemble_example_eval listMax_example

/-- Claim C3 counterexample: an input sequence whose slot starts are not
ascending (starts 5 s then 1 s) is overlaid in input order, so the overlay
positions are 5000 ms then 1000 ms — not ascending slot-start order. -/
theorem overlay_order_counterexample :
    ¬ List.Pairwise (fun x y : ℤ × Audio => x.1 ≤ y.1)
      (overlayTrace [⟨"a", "x", 5, 5001 / 1000⟩, ⟨"b", "y", 1, 1001 / 1000⟩]
        (fun _ => some [9])) := by
  have h5 : pyInt ((5 : ℚ) * 1000) = 5000 := by norm_num [pyInt]
  have h5e : pyInt ((5001 / 1000 : ℚ) * 1000) = 5001 := by norm_num [pyInt]
  have h1 : pyInt ((1 : ℚ) * 1000) = 1000 := by norm_num [pyInt]
  have h1e : pyInt ((1001 / 1000 : ℚ) * 1000) = 1001 := by norm_num [pyInt]
  have hone1 : traceOne (fun _ => some [9])
      ((0 : ℕ), (⟨"a", "x", 5, 5001 / 1000⟩ : TSeg)) = some ((5000 : ℤ), [9]) := by
    unfold traceOne
    rw [if_neg (by decide : ¬ (pyStrip "x" = ""))]
    show some (pyInt ((5 : ℚ) * 1000),
        processedClip [9] (pyInt ((5001 / 1000 : ℚ) * 1000) - pyInt ((5 : ℚ) * 1000))) = _
    rw [h5, h5e]
    norm_num
    decide
  have hone2 : traceOne (fun _ => some [9])
      ((1 : ℕ), (⟨"b", "y", 1, 1001 / 1000⟩ : TSeg)) = some ((1000 : ℤ), [9]) := by
    unfold traceOne
    rw [if_neg (by decide : ¬ (pyStrip "y" = ""))]
    show some (pyInt ((1 : ℚ) * 1000),
        processedClip [9] (pyInt ((1001 / 1000 : ℚ) * 1000) - pyInt ((1 : ℚ) * 1000))) = _
    rw [h1, h1e]
    norm_num
    decide
  have htr : overlayTrace [⟨"a", "x", 5, 5001 / 1000⟩, ⟨"b", "y", 1, 1001 / 1000⟩]
      (fun _ => some [9]) = [((5000 : ℤ), [9]), ((1000 : ℤ), [9])] := by
    unfold overlayTrace
    show List.filterMap _ [((0 : ℕ), (⟨"a", "x", 5, 5001 / 1000⟩ : TSeg)),
      ((1 : ℕ), (⟨"b", "y", 1, 1001 / 1000⟩ : TSeg))] = _
    simp only [List.filterMap_cons, hone1, hone2, List.filterMap_nil]
  rw [htr]
  intro hp
  have h := (List.pairwise_cons.mp hp).1 ((1000 : ℤ), [9]) (by simp)
  exact absurd h (by decide)

/-- Claim C3 (amended): within one call, clips are overlaid in input
sequence order (the exported track is the fold of the overlay trace over
the initial silent track); when the input sequence is sorted by ascending
slot start — as the transcription backend produces it — the overlay
positions are ascending, fixing a deterministic mixing order.  An input
sequence that is not sorted by slot start is overlaid in the given order,
not in ascending slot-start order. -/
theorem overlay_order_input_and_sorted :
    (∀ (segs : List TSeg) (clips : ℕ → Option Audio) (t : Audio),
      create_translated_audio_fixed segs clips = Except.ok t →
      t = (overlayTrace segs clips).foldl (fun tr pc => overlay tr pc.2 pc.1)
            (silent (pyInt (listMax (segs.map TSeg.stop) * 1000)))) ∧
    (∀ (segs : List TSeg) (clips : ℕ → Option Audio),
      List.Pairwise (fun a b : TSeg => a.start ≤ b.start) segs →
      List.Pairwise (fun x y : ℤ × Audio => x.1 ≤ y.1)
        (overlayTrace segs clips)) := by
  constructor
  · intro segs clips t h1
    rw [assemble_eq] at h1
    by_cases he : segs.isEmpty = true
    · rw [if_pos he] at h1; simp at h1
    · rw [if_neg he] at h1
      by_cases hz : (overlayTrace segs clips).length = 0
      · rw [if_pos hz] at h1; simp at h1
      · rw [if_neg hz] at h1
        simp only [Except.ok.injEq] at h1
        exact h1.symm
  · intro segs clips hsort
    unfold overlayTrace
    refine List.Pairwise.filterMap (traceOne clips) ?_ (pairwise_enum hsort)
    intro p q hpq x hx y hy
    have hxf : x.1 = pyInt (p.2.start * 1000) := traceOne_fst (Option.mem_def.mp hx)
    have hyf : y.1 = pyInt (q.2.start * 1000) := traceOne_fst (Option.mem_def.mp hy)
    rw [hxf, hyf]
    exact pyInt_mono (mul_le_mul_of_nonneg_right hpq (by norm_num))

theorem overlay_order_input_and_sorted_witness :
    ([7, 0, 0] : Audio) =
      (overlayTrace [⟨"a", "x", 0, 3 / 1000⟩] (fun _ => some [7])).foldl
        (fun tr pc => overlay tr pc.2 pc.1)
        (silent (pyInt (listMax ([⟨"a", "x", 0, 3 / 1000⟩].map TSeg.stop) * 1000))) ∧
    List.Pairwise (fun x y : ℤ × Audio => x.1 ≤ y.1)
      (overlayTrace [⟨"a", "x", 0, 3 / 1000⟩] (fun _ => some [7])) :=
  ⟨overlay_order_input_and_sorted.1 _ _ _ assemble_example_eval,
   overlay_order_input_and_sorted.2 _ _ (by simp)⟩

/-- Claim C10: the length of the assembled track is fixed at allocation and
preserved by every overlay — `overlay` never lengthens its base buffer,
samples past the boundary being cut off — so every track returned by
`create_translated_audio_fixed` has exactly the initially allocated length,
regardless of clip durations and slot positions. -/
theorem overlay_preserves_track_length :
    (∀ (base clip : Audio) (pos : ℤ),
      (overlay base clip pos).length = base.length) ∧
    (∀ (segs : List TSeg) (clips : ℕ → Option Audio) (t : Audio),
      create_translated_audio_fixed segs clips = Except.ok t →
      t.length = allocatedLen segs) := by
  refine ⟨overlay_length, ?_⟩
  intro segs clips t h1
  rw [assemble_eq] at h1
  by_cases he : segs.isEmpty = true
  · rw [if_pos he] at h1; simp at h1
  · rw [if_neg he] at h1
    by_cases hz : (overlayTrace segs clips).length = 0
    · rw [if_pos hz] at h1; simp at h1
    · rw [if_neg hz] at h1
      simp only [Except.ok.injEq] at h1
      rw [← h1, foldl_overlay_length]
      unfold silent allocatedLen
      rw [List.length_replicate]

theorem overlay_preserves_track_length_witness :
    (overlay [0, 0] [5] 0).length = ([0, 0] : Audio).length ∧
    ([7, 0, 0] : Audio).length = allocatedLen [⟨"a", "x", 0, 3 / 1000⟩] :=
  ⟨overlay_preserves_track_length.1 [0, 0] [5] 0,
   overlay_preserves_track_length.2 _ _ _ assemble_example_eval⟩
